import Mathlib

/-!
Shallow embedding of Mayfly's execution core
(`src/include/reaver/mayfly/runner.h`), together with theorems checking the
natural-language specification against it.

The embedding covers:
* the protocol decoding the parent performs on an isolated child's output
  pipe (`subprocess_runner::_run_test`, lines 227-270),
* the in-process / isolated execution choice (`_run_test`, lines 164-211),
* suite traversal with filtering (`_handle_suite`, lines 107-152),
* the result aggregation counters and the `run` entry point
  (lines 337-437).

Strings are modelled as Lean `String` (a wrapper around `List Char`,
matching `std::string` as a character sequence).  The wall clock, the child
process's observable behaviour and the watchdog flag are environment
inputs; each `testcase` value carries the concrete behaviour that the
environment exhibits for it during the run under consideration.
-/

namespace Mayfly

/-- Modelled from the spec: `testcase_status` lives in `testcase.h`, which is
not part of the sources; §3 gives the statuses and §6 fixes the wire codes
0=Passed, 1=Failed, 2=Crashed, 3=TimedOut, with `NotFound` placed after the
recognized range (§9 notes its code reads back as Crashed). -/
inductive testcase_status where
  | passed
  | failed
  | crashed
  | timed_out
  | not_found
deriving DecidableEq, Repr

/-- Modelled from the spec: the numeric value of each `testcase_status`
enumerator (declaration order in `testcase.h`, wire codes per §6). -/
def statusCode : testcase_status → Nat
  | .passed => 0
  | .failed => 1
  | .crashed => 2
  | .timed_out => 3
  | .not_found => 4

/-- `static_cast<testcase_status>(retval)` for the decoded values; the
runner only performs the cast when `retval <= 3` (runner.h line 254). -/
def statusOfCode : Nat → testcase_status
  | 0 => .passed
  | 1 => .failed
  | 2 => .crashed
  | 3 => .timed_out
  | _ => .not_found

/-- Whitespace in the default "C" locale, as skipped by `operator>>`. -/
def isSpaceChar (c : Char) : Bool :=
  c = ' ' || c = '\t' || c = '\n' || c = '\x0b' || c = '\x0c' || c = '\r'

/-- Value of a run of decimal digits. -/
def digitsToNat (l : List Char) : Nat :=
  l.foldl (fun acc c => 10 * acc + (c.toNat - '0'.toNat)) 0

/-- State of the `boost::iostreams` input stream the parent reads the pipe
through: remaining characters plus the `failbit`/`eofbit` flags that govern
subsequent reads. -/
structure istream where
  data : List Char
  failed : Bool
  eof : Bool
deriving DecidableEq, Repr

/-- `is >> retval` for `std::uintmax_t` (runner.h line 232): the sentry
fails on a stream that is not good; otherwise leading whitespace is
skipped, an optional sign is consumed, and a non-empty digit run is
converted (an absent digit run sets `failbit`; a value exceeding
`uintmax_t` stores the maximum and sets `failbit`; a `-` sign wraps the
magnitude modulo 2^64). -/
def extractUIntMax (is : istream) : Nat × istream :=
  if is.failed || is.eof then (0, { is with failed := true })
  else
    let s := is.data.dropWhile isSpaceChar
    let signed : Bool × List Char :=
      match s with
      | [] => (false, [])
      | c :: r => if c = '-' then (true, r) else if c = '+' then (false, r) else (false, c :: r)
    let ds := signed.2.takeWhile Char.isDigit
    let rest := signed.2.dropWhile Char.isDigit
    if ds.isEmpty then
      (0, { data := rest, failed := true, eof := rest.isEmpty })
    else
      let n := digitsToNat ds
      if n < 2 ^ 64 then
        ((if signed.1 then (2 ^ 64 - n) % 2 ^ 64 else n),
          { data := rest, failed := false, eof := rest.isEmpty })
      else
        (2 ^ 64 - 1, { data := rest, failed := true, eof := rest.isEmpty })

/-- `std::getline(is, message)` (runner.h line 233): fails without reading
when the stream is not good; otherwise reads up to and consuming a newline
(or up to end of stream, setting `eofbit`), failing if nothing could be
extracted. -/
def getlineChars (is : istream) : List Char × istream :=
  if is.failed || is.eof then ([], { is with failed := true })
  else if is.data.isEmpty then ([], { data := [], failed := true, eof := true })
  else
    let line := is.data.takeWhile (fun ch => ch != '\n')
    match is.data.dropWhile (fun ch => ch != '\n') with
    | [] => (line, { data := [], failed := false, eof := true })
    | _ :: r => (line, { data := r, failed := false, eof := false })

/-- Decoding of an isolated child's pipe contents, `subprocess_runner::
_run_test` lines 227-270: read an unsigned integer, `getline` the rest of
the line, strip the leading separator with `message.substr(1)` (which
throws `std::out_of_range` when the message is empty, landing in the
`catch (...)` that consults the watchdog's `timeout_flag`), then either
record `crashed` for a failed stream or an out-of-range code, or cast the
code to a status and keep the message as the description. -/
def read_child_result (stream : String) (timeout_flag : Bool) : testcase_status × String :=
  let is0 : istream := { data := stream.data, failed := false, eof := false }
  let r1 := extractUIntMax is0
  let r2 := getlineChars r1.2
  let message := r2.1
  if message.isEmpty then
    ((if timeout_flag then testcase_status.timed_out else testcase_status.crashed), "")
  else if r2.2.failed || r1.1 > 3 then
    (testcase_status.crashed, "")
  else
    (statusOfCode r1.1, { data := message.drop 1 })

/-- Modelled from the spec: a test body (declared in `testcase.h`, not in
the sources) either returns normally, throws `reaver::exception` (a domain
error, formatted through the logging collaborator), or throws a generic
`std::exception`; the carried string is the formatted message the runner's
handler would obtain. -/
inductive body_outcome where
  | ok
  | reaver_exception (message : String)
  | std_exception (message : String)
deriving DecidableEq, Repr

/-- A test case together with the concrete behaviour the environment
exhibits for it during the run: its body's outcome when invoked
in-process, and — when run isolated — the bytes the parent reads from the
pipe, the final value of the watchdog's `timeout_flag`, and the measured
wall-clock duration of the attempt in milliseconds. -/
structure testcase where
  name : String
  body : body_outcome
  child_stream : String
  child_timed_out : Bool
  elapsed_ms : Nat
deriving DecidableEq, Repr

/-- Modelled from the spec: `testcase_result` (declared in `testcase.h`,
not in the sources) carries name, status, description and duration;
`duration` is `none` until the runner assigns it. -/
structure testcase_result where
  name : String
  status : testcase_status
  description : String
  duration : Option Nat
deriving DecidableEq, Repr

mutual
/-- A suite: name, child suites, own test cases (`suite.h` interface as
used by `runner.h`). -/
inductive suite where
  | mk (name : String) (suites : suiteList) (tests : List testcase)
deriving DecidableEq, Repr

/-- The `std::vector<suite>` of child suites. -/
inductive suiteList where
  | nil
  | cons (s : suite) (rest : suiteList)
deriving DecidableEq, Repr
end

def suite.name : suite → String
  | .mk n _ _ => n

def suite.suites : suite → suiteList
  | .mk _ ss _ => ss

def suite.tests : suite → List testcase
  | .mk _ _ ts => ts

def suiteList.toList : suiteList → List suite
  | .nil => []
  | .cons s rest => s :: rest.toList

/-- `boost::join(suite_stack, "/")`. -/
def joinPath : List String → String
  | [] => ""
  | [x] => x
  | x :: xs => x ++ "/" ++ joinPath xs

/-- The qualified path of a test named `n` under `stack`:
`boost::join(suite_stack, "/") + "/" + name`. -/
def qualifiedName (stack : List String) (n : String) : String :=
  joinPath stack ++ "/" ++ n

/-- Index of the first occurrence of `pat` in `hay`
(`std::search` / `boost::range::search`); when `pat` does not occur the
end position (`hay.length`) is returned, and on an empty haystack the
begin position (which equals the end position). -/
def firstOccur : List Char → List Char → Nat
  | hay, pat =>
    if pat.isPrefixOf hay then 0
    else
      match hay with
      | [] => 0
      | _ :: tl => firstOccur tl pat + 1

/-- The visit test of `_handle_suite` (runner.h line 110): the suite is
processed unless `boost::range::search(_test_name, joined)` differs from
`_test_name.begin()`. -/
def suiteVisited (test_name joined : String) : Bool :=
  firstOccur test_name.data joined.data = 0

/-- Reporter notifications observed during a run, recorded in emission
order.  Suite events carry the `/`-joined path identifying the suite the
reporter was notified about; test events carry what `rep.test_started` /
`rep.test_finished` receive (the test's name, and the result's name and
status). -/
inductive Event where
  | suite_started (path : String)
  | suite_finished (path : String)
  | test_started (name : String)
  | test_finished (name : String) (status : testcase_status)
deriving DecidableEq, Repr

/-- Aggregated observable run state: the `runner` counters `_tests`,
`_passed`, the `_failed` list, plus instrumentation — the number of child
processes spawned, a log of dispatched tests as
`(qualifiedPath, ranInProcess, status)`, and the reporter event trace. -/
structure RunState where
  tests : Nat
  passed : Nat
  failed : List (testcase_status × String)
  spawns : Nat
  dispatched : List (String × Bool × testcase_status)
  events : List Event
deriving DecidableEq, Repr

def RunState.empty : RunState :=
  { tests := 0, passed := 0, failed := [], spawns := 0, dispatched := [], events := [] }

/-- Pointwise combination of two run states (numeric fields add, lists
concatenate); the state after more work is the state before it combined
with the work's own contribution. -/
def RunState.append (a b : RunState) : RunState :=
  { tests := a.tests + b.tests
    passed := a.passed + b.passed
    failed := a.failed ++ b.failed
    spawns := a.spawns + b.spawns
    dispatched := a.dispatched ++ b.dispatched
    events := a.events ++ b.events }

/-- `subprocess_runner::_run_test` (runner.h lines 154-294): the test runs
in-process iff the filter equals its qualified path (line 164), in which
case the body is invoked under the two catch handlers and `duration` is
never assigned; otherwise a child is spawned and the result decoded from
the pipe, with `duration` set from the wall clock.  Returns the result and
whether a subprocess was spawned. -/
def run_test (test_name : String) (stack : List String) (t : testcase) :
    testcase_result × Bool :=
  if qualifiedName stack t.name = test_name then
    (match t.body with
      | .ok =>
        { name := t.name, status := .passed, description := "", duration := none }
      | .reaver_exception m =>
        { name := t.name, status := .failed, description := m, duration := none }
      | .std_exception m =>
        { name := t.name, status := .failed, description := m, duration := none },
      false)
  else
    let d := read_child_result t.child_stream t.child_timed_out
    ({ name := t.name, status := d.1, description := d.2, duration := some t.elapsed_ms },
      true)

/-- One iteration of the dispatch loop of `_handle_suite` (runner.h lines
125-148): skip the test unless the filter is empty or equals its qualified
path; otherwise increment `_tests`, run it (emitting the `test_started` /
`test_finished` pair), and either increment `_passed` or append
`(status, qualifiedPath)` to `_failed`. -/
def dispatch_test (test_name : String) (stack : List String) (t : testcase)
    (st : RunState) : RunState :=
  if test_name ≠ "" ∧ qualifiedName stack t.name ≠ test_name then st
  else
    let r := run_test test_name stack t
    let st1 : RunState :=
      { st with
        tests := st.tests + 1
        spawns := st.spawns + (if r.2 then 1 else 0)
        dispatched := st.dispatched ++ [(qualifiedName stack t.name, !r.2, r.1.status)]
        events := st.events ++ [Event.test_started t.name,
          Event.test_finished r.1.name r.1.status] }
    if r.1.status = testcase_status.passed then
      { st1 with passed := st1.passed + 1 }
    else
      { st1 with failed := st1.failed ++ [(r.1.status, qualifiedName stack t.name)] }

mutual
/-- `subprocess_runner::_handle_suite` (runner.h lines 107-152): push the
suite's name, return early when the search-based visit test prunes it;
otherwise notify `suite_started`, recursively handle the child suites,
dispatch the suite's own tests (the thread pool is drained before the
block exits), and notify `suite_finished`. -/
def handle_suite (test_name : String) (stack : List String) (s : suite)
    (st : RunState) : RunState :=
  match s with
  | .mk n subs ts =>
    let stack' := stack ++ [n]
    if suiteVisited test_name (joinPath stack') = false then st
    else
      let st1 := { st with events := st.events ++ [Event.suite_started (joinPath stack')] }
      let st2 := handle_suites test_name stack' subs st1
      let st3 := ts.foldl (fun acc t => dispatch_test test_name stack' t acc) st2
      { st3 with events := st3.events ++ [Event.suite_finished (joinPath stack')] }

/-- The sequential loop over a vector of suites (`operator()` lines
96-102 and the child-suite loop at lines 117-120). -/
def handle_suites (test_name : String) (stack : List String) (l : suiteList)
    (st : RunState) : RunState :=
  match l with
  | .nil => st
  | .cons s rest => handle_suites test_name stack rest (handle_suite test_name stack s st)
end

/-- `subprocess_runner::operator()` applied to the whole forest, starting
from an empty suite stack and fresh counters. -/
def runner_call (test_name : String) (suites : suiteList) : RunState :=
  handle_suites test_name [] suites RunState.empty

/-- The outcome of the `run` entry point: a process exit code together
with the final runner state and the protocol bytes written directly to
standard output, or the propagated `invalid_testcase_name_format`
exception. -/
inductive RunOutcome where
  | exited (code : Nat) (st : RunState) (out : String)
  | raised_invalid_testcase_name_format
deriving DecidableEq, Repr

/-- The command-line configuration `run` receives from the external flag
parser (runner.h lines 339-372). -/
structure Args where
  help : Bool
  version : Bool
  quiet : Bool
  filter : String
  threads : Nat
  timeout : Nat
deriving DecidableEq, Repr

/-- `run` (runner.h lines 337-437): `--help` and `--version` return 0
before any dispatch; a non-empty filter without `/` either raises
`invalid_testcase_name_format` (non-quiet) or writes the numeric
`not_found` code to standard output and returns 1 (quiet); otherwise the
subprocess runner processes the suites and the exit code is 0 iff
`passed() == total()`. -/
def run (suites : suiteList) (a : Args) : RunOutcome :=
  if a.help then .exited 0 RunState.empty ""
  else if a.version then .exited 0 RunState.empty ""
  else if a.filter ≠ "" ∧ a.filter.data.contains '/' = false then
    if a.quiet = false then .raised_invalid_testcase_name_format
    else .exited 1 RunState.empty (toString (statusCode testcase_status.not_found))
  else
    .exited
      (if (runner_call a.filter suites).passed = (runner_call a.filter suites).tests
        then 0 else 1)
      (runner_call a.filter suites) ""

mutual
/-- Qualified paths of all test cases in a suite, children-first in
traversal order. -/
def suite.allTests (stack : List String) : suite → List String
  | .mk n subs ts =>
    suiteList.allTests (stack ++ [n]) subs
      ++ ts.map (fun t => qualifiedName (stack ++ [n]) t.name)

/-- Qualified paths of all test cases in a suite forest. -/
def suiteList.allTests (stack : List String) : suiteList → List String
  | .nil => []
  | .cons s rest => suite.allTests stack s ++ suiteList.allTests stack rest
end

/-! ### String and path lemmas -/

theorem str_data_append (a b : String) : (a ++ b).data = a.data ++ b.data := by
  cases a; cases b; rfl

theorem str_mk_data (s : String) : String.mk s.data = s := by
  cases s; rfl

theorem str_data_eq_nil (s : String) : s.data = [] ↔ s = "" := by
  cases s with
  | mk d =>
    constructor
    · intro h; subst h; rfl
    · intro h; rw [h]

theorem str_append_assoc (a b c : String) : a ++ b ++ c = a ++ (b ++ c) := by
  cases a; cases b; cases c
  exact congrArg String.mk (List.append_assoc _ _ _)

theorem joinPath_concat (l : List String) (x : String) (h : l ≠ []) :
    joinPath (l ++ [x]) = joinPath l ++ "/" ++ x := by
  induction l with
  | nil => exact absurd rfl h
  | cons y ys ih =>
    cases ys with
    | nil => rfl
    | cons z zs =>
      show joinPath (y :: (z :: zs ++ [x])) = joinPath (y :: z :: zs) ++ "/" ++ x
      have h1 : joinPath (y :: (z :: zs ++ [x])) = y ++ "/" ++ joinPath (z :: zs ++ [x]) := by
        cases zs <;> rfl
      rw [h1, ih (by simp), show joinPath (y :: z :: zs) = y ++ "/" ++ joinPath (z :: zs) from rfl]
      simp only [← str_append_assoc]

theorem qualifiedName_data (stack : List String) (n : String) :
    (qualifiedName stack n).data = (joinPath stack).data ++ '/' :: n.data := by
  show (joinPath stack ++ "/" ++ n).data = _
  rw [str_data_append, str_data_append]
  have h : ("/" : String).data = ['/'] := rfl
  rw [h, List.append_assoc]
  rfl

theorem qualifiedName_ne_empty (stack : List String) (n : String) :
    qualifiedName stack n ≠ "" := by
  intro h
  have := qualifiedName_data stack n
  rw [h] at this
  exact absurd this.symm (by simp)

/-! ### The search-based visit test -/

theorem firstOccur_eq_zero (hay pat : List Char) :
    firstOccur hay pat = 0 ↔ (hay = [] ∨ pat.isPrefixOf hay = true) := by
  cases hay with
  | nil => simp [firstOccur]
  | cons h tl =>
    by_cases hp : pat.isPrefixOf (h :: tl) = true
    · simp [firstOccur, hp]
    · simp only [Bool.not_eq_true] at hp
      simp [firstOccur, hp]

theorem suiteVisited_iff (f j : String) :
    suiteVisited f j = true ↔ (f = "" ∨ j.data.isPrefixOf f.data = true) := by
  simp [suiteVisited, firstOccur_eq_zero, str_data_eq_nil]

theorem suiteVisited_empty_filter (j : String) : suiteVisited "" j = true := by
  rw [suiteVisited_iff]
  exact Or.inl rfl

/-! ### Run-state algebra -/

@[simp] theorem RunState.append_tests (a b : RunState) :
    (a.append b).tests = a.tests + b.tests := rfl

@[simp] theorem RunState.append_passed (a b : RunState) :
    (a.append b).passed = a.passed + b.passed := rfl

@[simp] theorem RunState.append_failed (a b : RunState) :
    (a.append b).failed = a.failed ++ b.failed := rfl

@[simp] theorem RunState.append_spawns (a b : RunState) :
    (a.append b).spawns = a.spawns + b.spawns := rfl

@[simp] theorem RunState.append_dispatched (a b : RunState) :
    (a.append b).dispatched = a.dispatched ++ b.dispatched := rfl

@[simp] theorem RunState.append_events (a b : RunState) :
    (a.append b).events = a.events ++ b.events := rfl

@[simp] theorem RunState.empty_tests : RunState.empty.tests = 0 := rfl

@[simp] theorem RunState.empty_passed : RunState.empty.passed = 0 := rfl

@[simp] theorem RunState.empty_failed : RunState.empty.failed = [] := rfl

@[simp] theorem RunState.empty_spawns : RunState.empty.spawns = 0 := rfl

@[simp] theorem RunState.empty_dispatched : RunState.empty.dispatched = [] := rfl

@[simp] theorem RunState.empty_events : RunState.empty.events = [] := rfl

theorem RunState.append_empty (st : RunState) : st.append RunState.empty = st := by
  simp [RunState.append, RunState.empty]

theorem RunState.empty_append (st : RunState) : RunState.empty.append st = st := by
  simp [RunState.append, RunState.empty]

theorem RunState.append_assoc (a b c : RunState) :
    (a.append b).append c = a.append (b.append c) := by
  simp [RunState.append, List.append_assoc, Nat.add_assoc]

/-! ### Mutual induction over the suite tree -/

theorem suite_mutual_ind {P : suite → Prop} {Q : suiteList → Prop}
    (hmk : ∀ n subs ts, Q subs → P (suite.mk n subs ts))
    (hnil : Q suiteList.nil)
    (hcons : ∀ s rest, P s → Q rest → Q (suiteList.cons s rest)) :
    (∀ s, P s) ∧ (∀ l, Q l) :=
  ⟨fun s => @suite.rec P Q hmk hnil hcons s,
   fun l => @suiteList.rec P Q hmk hnil hcons l⟩

/-! ### State homomorphism: each processing step only appends to the state -/

theorem run_test_spawned (f : String) (stack : List String) (t : testcase) :
    (run_test f stack t).2 = !decide (qualifiedName stack t.name = f) := by
  by_cases h : qualifiedName stack t.name = f <;> simp [run_test, h]

theorem dispatch_hom (f : String) (stack : List String) (t : testcase) (st : RunState) :
    dispatch_test f stack t st = st.append (dispatch_test f stack t RunState.empty) := by
  by_cases h1 : f ≠ "" ∧ qualifiedName stack t.name ≠ f
  · simp [dispatch_test, h1, RunState.append_empty]
  · by_cases h2 : (run_test f stack t).1.status = testcase_status.passed <;>
      simp [dispatch_test, h1, h2, RunState.append, RunState.empty]

theorem foldl_dispatch_hom (f : String) (stack : List String) (l : List testcase)
    (st : RunState) :
    l.foldl (fun acc t => dispatch_test f stack t acc) st
      = st.append (l.foldl (fun acc t => dispatch_test f stack t acc) RunState.empty) := by
  induction l generalizing st with
  | nil => simp [RunState.append_empty]
  | cons t l ih =>
    show l.foldl _ (dispatch_test f stack t st) = _
    rw [ih (dispatch_test f stack t st), dispatch_hom f stack t st, RunState.append_assoc,
      ← ih (dispatch_test f stack t RunState.empty)]
    rfl

/-- The run state consisting solely of some reporter events. -/
def evd (es : List Event) : RunState :=
  { RunState.empty with events := es }

theorem ev_push (st : RunState) (es : List Event) :
    ({ st with events := st.events ++ es } : RunState) = st.append (evd es) := by
  simp [RunState.append, evd, RunState.empty]

theorem handle_hom_pair :
    (∀ s : suite, ∀ f stack st,
      handle_suite f stack s st = st.append (handle_suite f stack s RunState.empty))
    ∧ (∀ l : suiteList, ∀ f stack st,
      handle_suites f stack l st = st.append (handle_suites f stack l RunState.empty)) := by
  apply suite_mutual_ind
  · intro n subs ts hsubs f stack st
    rw [handle_suite, handle_suite]
    by_cases hv : suiteVisited f (joinPath (stack ++ [n])) = false
    · simp [hv, RunState.append_empty]
    · simp only [hv, if_false]
      rw [ev_push st [Event.suite_started (joinPath (stack ++ [n]))]]
      rw [hsubs f (stack ++ [n])
        (st.append (evd [Event.suite_started (joinPath (stack ++ [n]))]))]
      rw [foldl_dispatch_hom f (stack ++ [n]) ts
        ((st.append (evd [Event.suite_started (joinPath (stack ++ [n]))])).append
          (handle_suites f (stack ++ [n]) subs RunState.empty))]
      rw [ev_push RunState.empty [Event.suite_started (joinPath (stack ++ [n]))],
        RunState.empty_append]
      rw [hsubs f (stack ++ [n]) (evd [Event.suite_started (joinPath (stack ++ [n]))])]
      rw [foldl_dispatch_hom f (stack ++ [n]) ts
        ((evd [Event.suite_started (joinPath (stack ++ [n]))]).append
          (handle_suites f (stack ++ [n]) subs RunState.empty))]
      rw [ev_push
        (((st.append (evd [Event.suite_started (joinPath (stack ++ [n]))])).append
            (handle_suites f (stack ++ [n]) subs RunState.empty)).append
          (ts.foldl (fun acc t => dispatch_test f (stack ++ [n]) t acc) RunState.empty))
        [Event.suite_finished (joinPath (stack ++ [n]))]]
      rw [ev_push
        (((evd [Event.suite_started (joinPath (stack ++ [n]))]).append
            (handle_suites f (stack ++ [n]) subs RunState.empty)).append
          (ts.foldl (fun acc t => dispatch_test f (stack ++ [n]) t acc) RunState.empty))
        [Event.suite_finished (joinPath (stack ++ [n]))]]
      simp only [RunState.append_assoc]
      simp
  · intro f stack st
    rw [handle_suites, handle_suites]
    simp [RunState.append_empty]
  · intro s rest hs hrest f stack st
    rw [handle_suites, handle_suites]
    rw [hrest f stack (handle_suite f stack s st), hs f stack st,
      hrest f stack (handle_suite f stack s RunState.empty),
      hs f stack RunState.empty, RunState.empty_append, RunState.append_assoc]

theorem handle_suite_hom (f : String) (stack : List String) (s : suite) (st : RunState) :
    handle_suite f stack s st = st.append (handle_suite f stack s RunState.empty) :=
  handle_hom_pair.1 s f stack st

theorem handle_suites_hom (f : String) (stack : List String) (l : suiteList) (st : RunState) :
    handle_suites f stack l st = st.append (handle_suites f stack l RunState.empty) :=
  handle_hom_pair.2 l f stack st

theorem handle_suite_pruned (f : String) (stack : List String) (n : String)
    (subs : suiteList) (ts : List testcase) (st : RunState)
    (hv : suiteVisited f (joinPath (stack ++ [n])) = false) :
    handle_suite f stack (.mk n subs ts) st = st := by
  rw [handle_suite]
  simp [hv]

theorem handle_suite_not_visited (f : String) (stack : List String) (s : suite)
    (st : RunState) (hv : suiteVisited f (joinPath (stack ++ [s.name])) = false) :
    handle_suite f stack s st = st := by
  cases s with
  | mk n subs ts => exact handle_suite_pruned f stack n subs ts st (by simpa [suite.name] using hv)

/-- Processing a visited suite decomposes into the `suite_started`
notification, the full sequential processing of the child suites, the
dispatch of the suite's own tests, and the `suite_finished` notification,
in that order. -/
theorem handle_suite_visited_decomp (f : String) (stack : List String) (n : String)
    (subs : suiteList) (ts : List testcase) (st : RunState)
    (hv : suiteVisited f (joinPath (stack ++ [n])) = true) :
    handle_suite f stack (.mk n subs ts) st =
      st.append ((evd [Event.suite_started (joinPath (stack ++ [n]))]).append
        ((handle_suites f (stack ++ [n]) subs RunState.empty).append
          ((ts.foldl (fun acc t => dispatch_test f (stack ++ [n]) t acc) RunState.empty).append
            (evd [Event.suite_finished (joinPath (stack ++ [n]))])))) := by
  rw [handle_suite]
  simp only [hv]
  rw [ev_push st [Event.suite_started (joinPath (stack ++ [n]))]]
  rw [handle_suites_hom f (stack ++ [n]) subs
    (st.append (evd [Event.suite_started (joinPath (stack ++ [n]))]))]
  rw [foldl_dispatch_hom f (stack ++ [n]) ts
    ((st.append (evd [Event.suite_started (joinPath (stack ++ [n]))])).append
      (handle_suites f (stack ++ [n]) subs RunState.empty))]
  rw [ev_push
    (((st.append (evd [Event.suite_started (joinPath (stack ++ [n]))])).append
        (handle_suites f (stack ++ [n]) subs RunState.empty)).append
      (ts.foldl (fun acc t => dispatch_test f (stack ++ [n]) t acc) RunState.empty))
    [Event.suite_finished (joinPath (stack ++ [n]))]]
  simp only [RunState.append_assoc]
  simp

/-! ### Every test under a suite lies strictly below the suite's path -/

theorem allTests_shape_pair :
    (∀ s : suite, ∀ stack q, q ∈ suite.allTests stack s →
      ∃ r : String, q = joinPath (stack ++ [s.name]) ++ "/" ++ r)
    ∧ (∀ l : suiteList, ∀ stack q, stack ≠ [] → q ∈ suiteList.allTests stack l →
      ∃ r : String, q = joinPath stack ++ "/" ++ r) := by
  apply suite_mutual_ind
  · intro n subs ts hsubs stack q hq
    rw [suite.allTests] at hq
    rcases List.mem_append.mp hq with h | h
    · exact (by simpa [suite.name] using hsubs (stack ++ [n]) q (by simp) h)
    · rcases List.mem_map.mp h with ⟨t, _, rfl⟩
      exact ⟨t.name, by simp [suite.name, qualifiedName]⟩
  · intro stack q _ hq
    rw [suiteList.allTests] at hq
    exact absurd hq (List.not_mem_nil q)
  · intro s rest hs hrest stack q hne hq
    rw [suiteList.allTests] at hq
    rcases List.mem_append.mp hq with h | h
    · rcases hs stack q h with ⟨r, rfl⟩
      refine ⟨s.name ++ "/" ++ r, ?_⟩
      rw [joinPath_concat stack s.name hne]
      simp [str_append_assoc]
    · exact hrest stack q hne h

theorem mem_allTests_visited (f : String) (stack : List String) (s : suite) (q : String)
    (hq : q ∈ suite.allTests stack s) (hqf : q = f) :
    suiteVisited f (joinPath (stack ++ [s.name])) = true := by
  rcases allTests_shape_pair.1 s stack q hq with ⟨r, rfl⟩
  rw [suiteVisited_iff]
  right
  rw [← hqf, str_data_append, str_data_append]
  simp [List.isPrefixOf_iff_prefix, List.append_assoc]

/-! ### The aggregation invariant -/

/-- Aggregation invariant tying a run-state delta to the qualified paths
`qs` of the test cases it traversed: the dispatched tests are exactly the
in-scope ones (all of `qs` for an empty filter, the exact matches
otherwise), `_tests` counts them, `_passed` counts the passing ones,
`_failed` lists exactly the non-passing ones with their qualified paths,
the spawn count equals the number of isolated runs, and a dispatched test
ran in-process precisely when its qualified path equals the filter. -/
def Inv (f : String) (qs : List String) (st : RunState) : Prop :=
  st.dispatched.map (fun e => e.1)
      = (if f = "" then qs else qs.filter (fun q => decide (q = f)))
    ∧ st.tests = st.dispatched.length
    ∧ st.passed
      = (st.dispatched.filter (fun e => decide (e.2.2 = testcase_status.passed))).length
    ∧ st.failed
      = (st.dispatched.filter (fun e => !decide (e.2.2 = testcase_status.passed))).map
          (fun e => (e.2.2, e.1))
    ∧ st.spawns = (st.dispatched.filter (fun e => !e.2.1)).length
    ∧ ∀ e ∈ st.dispatched, e.2.1 = decide (e.1 = f)

theorem Inv_empty (f : String) : Inv f [] RunState.empty := by
  refine ⟨?_, ?_, ?_, ?_, ?_, ?_⟩ <;> simp

theorem Inv_events {f : String} {qs : List String} {st : RunState}
    (h : Inv f qs st) (es : List Event) : Inv f qs { st with events := es } := h

theorem Inv_evd (f : String) (es : List Event) : Inv f [] (evd es) :=
  Inv_events (Inv_empty f) es

theorem Inv_append {f : String} {qs1 qs2 : List String} {st1 st2 : RunState}
    (h1 : Inv f qs1 st1) (h2 : Inv f qs2 st2) :
    Inv f (qs1 ++ qs2) (st1.append st2) := by
  obtain ⟨a1, b1, c1, d1, e1, g1⟩ := h1
  obtain ⟨a2, b2, c2, d2, e2, g2⟩ := h2
  refine ⟨?_, ?_, ?_, ?_, ?_, ?_⟩
  · rw [RunState.append_dispatched, List.map_append, a1, a2]
    by_cases hf : f = "" <;> simp [hf]
  · simp [b1, b2, a1, a2]
  · simp [c1, c2]
  · simp [d1, d2]
  · simp [e1, e2]
  · intro e he
    rcases List.mem_append.mp (by simpa using he) with h | h
    · exact g1 e h
    · exact g2 e h

theorem dispatch_Inv (f : String) (stack : List String) (t : testcase) :
    Inv f [qualifiedName stack t.name] (dispatch_test f stack t RunState.empty) := by
  by_cases h : f ≠ "" ∧ qualifiedName stack t.name ≠ f
  · refine ⟨?_, ?_, ?_, ?_, ?_, ?_⟩ <;> simp [dispatch_test, h, h.1, h.2]
  · push_neg at h
    by_cases hf : f = ""
    · subst hf
      by_cases hst : (run_test "" stack t).1.status = testcase_status.passed <;>
        refine ⟨?_, ?_, ?_, ?_, ?_, ?_⟩ <;>
          simp [dispatch_test, run_test_spawned, hst, qualifiedName_ne_empty]
    · have hq : qualifiedName stack t.name = f := h hf
      subst hq
      by_cases hst : (run_test (qualifiedName stack t.name) stack t).1.status
          = testcase_status.passed <;>
        refine ⟨?_, ?_, ?_, ?_, ?_, ?_⟩ <;>
          simp [dispatch_test, run_test_spawned, hst, qualifiedName_ne_empty]

theorem foldl_dispatch_Inv (f : String) (stack : List String) (l : List testcase) :
    Inv f (l.map (fun t => qualifiedName stack t.name))
      (l.foldl (fun acc t => dispatch_test f stack t acc) RunState.empty) := by
  induction l with
  | nil => exact Inv_empty f
  | cons t l ih =>
    show Inv _ _ (l.foldl _ (dispatch_test f stack t RunState.empty))
    rw [foldl_dispatch_hom]
    exact Inv_append (dispatch_Inv f stack t) ih

theorem handle_Inv_pair :
    (∀ s : suite, ∀ f stack,
      Inv f (suite.allTests stack s) (handle_suite f stack s RunState.empty))
    ∧ (∀ l : suiteList, ∀ f stack,
      Inv f (suiteList.allTests stack l) (handle_suites f stack l RunState.empty)) := by
  apply suite_mutual_ind
  · intro n subs ts hsubs f stack
    by_cases hv : suiteVisited f (joinPath (stack ++ [n])) = true
    · rw [handle_suite_visited_decomp f stack n subs ts RunState.empty hv,
        RunState.empty_append]
      have h2 := hsubs f (stack ++ [n])
      have h3 := foldl_dispatch_Inv f (stack ++ [n]) ts
      have h4 := Inv_append (Inv_evd f [Event.suite_started (joinPath (stack ++ [n]))])
        (Inv_append h2 (Inv_append h3
          (Inv_evd f [Event.suite_finished (joinPath (stack ++ [n]))])))
      simpa [suite.allTests] using h4
    · have hv' : suiteVisited f (joinPath (stack ++ [n])) = false := by
        revert hv; cases suiteVisited f (joinPath (stack ++ [n])) <;> simp
      rw [handle_suite_pruned f stack n subs ts RunState.empty hv']
      have hf : f ≠ "" := by
        intro hfe
        rw [hfe, suiteVisited_empty_filter] at hv'
        cases hv'
      have hnone : ∀ q ∈ suite.allTests stack (.mk n subs ts), decide (q = f) = false := by
        intro q hq
        by_cases hqf : q = f
        · have := mem_allTests_visited f stack (.mk n subs ts) q hq hqf
          rw [show suite.name (.mk n subs ts) = n from rfl] at this
          rw [this] at hv'
          cases hv'
        · simp [hqf]
      refine ⟨?_, ?_, ?_, ?_, ?_, ?_⟩ <;> simp [hf]
      intro q hq
      simpa using hnone q hq
  · intro f stack
    exact Inv_empty f
  · intro s rest hs hrest f stack
    rw [show handle_suites f stack (.cons s rest) RunState.empty
        = handle_suites f stack rest (handle_suite f stack s RunState.empty) from by
      rw [handle_suites]]
    rw [handle_suites_hom]
    rw [show suiteList.allTests stack (.cons s rest)
        = suite.allTests stack s ++ suiteList.allTests stack rest from by
      rw [suiteList.allTests]]
    exact Inv_append (hs f stack) (hrest f stack)

/-- The invariant instantiated at the runner's entry point. -/
theorem runner_call_Inv (f : String) (suites : suiteList) :
    Inv f (suiteList.allTests [] suites) (runner_call f suites) :=
  handle_Inv_pair.2 suites f []

/-! ### Event-trace lemmas -/

theorem suiteList_ind {Q : suiteList → Prop} (hnil : Q .nil)
    (hcons : ∀ s rest, Q rest → Q (.cons s rest)) : ∀ l, Q l :=
  (@suite_mutual_ind (fun _ => True) Q (fun _ _ _ _ => trivial) hnil
    (fun s rest _ h => hcons s rest h)).2

theorem handle_suite_finished_mem (f : String) (stack : List String) (s : suite)
    (st : RunState) (hv : suiteVisited f (joinPath (stack ++ [s.name])) = true) :
    Event.suite_finished (joinPath (stack ++ [s.name])) ∈ (handle_suite f stack s st).events := by
  cases s with
  | mk n subs ts =>
    rw [handle_suite_visited_decomp f stack n subs ts st (by simpa [suite.name] using hv)]
    simp [evd, suite.name]

theorem handle_suites_finished_mem (f : String) (stack : List String) :
    ∀ l : suiteList, ∀ sub ∈ l.toList,
      suiteVisited f (joinPath (stack ++ [sub.name])) = true →
      Event.suite_finished (joinPath (stack ++ [sub.name]))
        ∈ (handle_suites f stack l RunState.empty).events := by
  apply suiteList_ind
  · intro sub h
    rw [suiteList.toList] at h
    exact absurd h (List.not_mem_nil sub)
  · intro s rest ih sub hmem hvis
    rw [show handle_suites f stack (.cons s rest) RunState.empty
        = handle_suites f stack rest (handle_suite f stack s RunState.empty) from by
      rw [handle_suites]]
    rw [handle_suites_hom]
    simp only [RunState.append_events, List.mem_append]
    have hmem' : sub = s ∨ sub ∈ rest.toList := by
      rw [suiteList.toList] at hmem
      simpa using hmem
    rcases hmem' with rfl | h
    · exact Or.inl (handle_suite_finished_mem f stack sub RunState.empty hvis)
    · exact Or.inr (ih sub h hvis)

theorem foldl_test_started_mem (f : String) (stack : List String) (l : List testcase) :
    ∀ t ∈ l, (f = "" ∨ qualifiedName stack t.name = f) →
      Event.test_started t.name
        ∈ (l.foldl (fun acc t => dispatch_test f stack t acc) RunState.empty).events := by
  induction l with
  | nil => intro t h; exact absurd h (List.not_mem_nil t)
  | cons t l ih =>
    intro u hu hcond
    show _ ∈ (l.foldl _ (dispatch_test f stack t RunState.empty)).events
    rw [foldl_dispatch_hom]
    simp only [RunState.append_events, List.mem_append]
    rcases List.mem_cons.mp hu with rfl | h
    · left
      have hns : ¬ (f ≠ "" ∧ qualifiedName stack u.name ≠ f) := by
        rcases hcond with h | h <;> simp [h]
      by_cases hst : (run_test f stack u).1.status = testcase_status.passed <;>
        simp [dispatch_test, hns, hst]
    · exact Or.inr (ih u h hcond)

/-! ### Claim theorems -/

/-- C7: for a run with a non-empty filter, a suite is visited iff its own
`/`-joined path is a string prefix of the filter; a pruned suite leaves
the state untouched (no `suite_started`/`suite_finished` notification, no
descendant visited, nothing dispatched), while a visited suite receives
its `suite_started` notification. -/
theorem mayfly_C7 (f : String) (stack : List String) (s : suite) (st : RunState)
    (hf : f ≠ "") :
    (suiteVisited f (joinPath (stack ++ [s.name])) = true
        ↔ (joinPath (stack ++ [s.name])).data.isPrefixOf f.data = true)
    ∧ (suiteVisited f (joinPath (stack ++ [s.name])) = false → handle_suite f stack s st = st)
    ∧ (suiteVisited f (joinPath (stack ++ [s.name])) = true →
        Event.suite_started (joinPath (stack ++ [s.name]))
          ∈ (handle_suite f stack s st).events) := by
  refine ⟨?_, ?_, ?_⟩
  · rw [suiteVisited_iff]
    simp [hf]
  · exact handle_suite_not_visited f stack s st
  · intro hv
    cases s with
    | mk n subs ts =>
      rw [handle_suite_visited_decomp f stack n subs ts st (by simpa [suite.name] using hv)]
      simp [evd, suite.name]

/-- C7 witness: in a run filtered to `A/t`, the suite `A` is visited (its
path `A` is a prefix of the filter) and untouched pruning holds for the
unrelated suite `B`. -/
theorem mayfly_C7_witness :
    ((suiteVisited "A/t" (joinPath ([] ++ [(suite.mk "B" .nil []).name])) = true
        ↔ (joinPath ([] ++ [(suite.mk "B" .nil []).name])).data.isPrefixOf
            ("A/t" : String).data = true)
      ∧ (suiteVisited "A/t" (joinPath ([] ++ [(suite.mk "B" .nil []).name])) = false →
          handle_suite "A/t" [] (suite.mk "B" .nil []) RunState.empty = RunState.empty)
      ∧ (suiteVisited "A/t" (joinPath ([] ++ [(suite.mk "B" .nil []).name])) = true →
          Event.suite_started (joinPath ([] ++ [(suite.mk "B" .nil []).name]))
            ∈ (handle_suite "A/t" [] (suite.mk "B" .nil []) RunState.empty).events)) :=
  mayfly_C7 "A/t" [] (suite.mk "B" .nil []) RunState.empty (by decide)

/-- C6: processing a visited suite notifies `suite_started`, then emits
the full event traces of its child suites (each visited child's
`suite_finished` among them), then the events of the suite's own test
dispatches, and finally `suite_finished` — child suites are fully and
sequentially processed before any of the suite's own tests run, and the
suite's `suite_finished` is emitted only after all its own tests have
completed. -/
theorem mayfly_C6 (f : String) (stack : List String) (n : String) (subs : suiteList)
    (ts : List testcase) (st : RunState)
    (hv : suiteVisited f (joinPath (stack ++ [n])) = true) :
    ∃ subEvents testEvents,
      (handle_suite f stack (.mk n subs ts) st).events
          = st.events ++ [Event.suite_started (joinPath (stack ++ [n]))]
            ++ subEvents ++ testEvents
            ++ [Event.suite_finished (joinPath (stack ++ [n]))]
        ∧ subEvents = (handle_suites f (stack ++ [n]) subs RunState.empty).events
        ∧ testEvents
          = (ts.foldl (fun acc t => dispatch_test f (stack ++ [n]) t acc) RunState.empty).events
        ∧ (∀ sub ∈ subs.toList,
            suiteVisited f (joinPath ((stack ++ [n]) ++ [sub.name])) = true →
            Event.suite_finished (joinPath ((stack ++ [n]) ++ [sub.name])) ∈ subEvents)
        ∧ (∀ t ∈ ts, (f = "" ∨ qualifiedName (stack ++ [n]) t.name = f) →
            Event.test_started t.name ∈ testEvents) := by
  refine ⟨(handle_suites f (stack ++ [n]) subs RunState.empty).events,
    (ts.foldl (fun acc t => dispatch_test f (stack ++ [n]) t acc) RunState.empty).events,
    ?_, rfl, rfl, ?_, ?_⟩
  · rw [handle_suite_visited_decomp f stack n subs ts st hv]
    simp [evd, List.append_assoc]
  · exact fun sub h hvis => handle_suites_finished_mem f (stack ++ [n]) subs sub h hvis
  · exact fun t h hcond => foldl_test_started_mem f (stack ++ [n]) ts t h hcond

/-- C6 witness: suite `A` with sub-suite `A/B` (holding `t2`) and direct
test `A/t1`, run unfiltered from fresh state. -/
theorem mayfly_C6_witness :
    ∃ subEvents testEvents,
      (handle_suite "" [] (.mk "A"
            (.cons (.mk "B" .nil [⟨"t2", .ok, "0 \n", false, 1⟩]) .nil)
            [⟨"t1", .ok, "0 \n", false, 1⟩]) RunState.empty).events
          = RunState.empty.events ++ [Event.suite_started (joinPath ([] ++ ["A"]))]
            ++ subEvents ++ testEvents
            ++ [Event.suite_finished (joinPath ([] ++ ["A"]))]
        ∧ subEvents = (handle_suites "" ([] ++ ["A"])
            (.cons (.mk "B" .nil [⟨"t2", .ok, "0 \n", false, 1⟩]) .nil) RunState.empty).events
        ∧ testEvents = (([⟨"t1", .ok, "0 \n", false, 1⟩] : List testcase).foldl
            (fun acc t => dispatch_test "" ([] ++ ["A"]) t acc) RunState.empty).events
        ∧ (∀ sub ∈ (suiteList.cons (.mk "B" .nil [⟨"t2", .ok, "0 \n", false, 1⟩]) .nil).toList,
            suiteVisited "" (joinPath (([] ++ ["A"]) ++ [sub.name])) = true →
            Event.suite_finished (joinPath (([] ++ ["A"]) ++ [sub.name])) ∈ subEvents)
        ∧ (∀ t ∈ ([⟨"t1", .ok, "0 \n", false, 1⟩] : List testcase),
            ("" = "" ∨ qualifiedName ([] ++ ["A"]) t.name = "") →
            Event.test_started t.name ∈ testEvents) :=
  mayfly_C6 "" [] "A" (.cons (.mk "B" .nil [⟨"t2", .ok, "0 \n", false, 1⟩]) .nil)
    [⟨"t1", .ok, "0 \n", false, 1⟩] RunState.empty (by decide)

theorem length_filter_not_add {α : Type} (p : α → Bool) (l : List α) :
    (l.filter p).length + (l.filter (fun x => !(p x))).length = l.length := by
  induction l with
  | nil => rfl
  | cons a l ih => by_cases h : p a <;> simp [List.filter_cons, h] <;> omega

theorem allTests_ne_empty_pair :
    (∀ s : suite, ∀ stack q, q ∈ suite.allTests stack s → q ≠ "")
    ∧ (∀ l : suiteList, ∀ stack q, q ∈ suiteList.allTests stack l → q ≠ "") := by
  apply suite_mutual_ind
  · intro n subs ts hsubs stack q hq
    rw [suite.allTests] at hq
    rcases List.mem_append.mp hq with h | h
    · exact hsubs (stack ++ [n]) q h
    · rcases List.mem_map.mp h with ⟨t, _, rfl⟩
      exact qualifiedName_ne_empty (stack ++ [n]) t.name
  · intro stack q hq
    rw [suiteList.allTests] at hq
    exact absurd hq (List.not_mem_nil q)
  · intro s rest hs hrest stack q hq
    rw [suiteList.allTests] at hq
    rcases List.mem_append.mp hq with h | h
    · exact hs stack q h
    · exact hrest stack q h

/-- C5: accounting invariant of a run — the dispatched tests are exactly
the in-scope ones (all tests for an empty filter, the exact qualified-path
matches otherwise), `_tests` counts exactly the dispatched tests,
`_passed` counts exactly the passing ones, `_failed` holds exactly one
`(status, qualifiedPath)` entry per non-passing dispatched test, and
consequently every dispatched test contributes exactly one of the two
outcomes: `passed + failed.length = tests`. -/
theorem mayfly_C5 (f : String) (suites : suiteList) :
    (runner_call f suites).dispatched.map (fun e => e.1)
        = (if f = "" then suiteList.allTests [] suites
          else (suiteList.allTests [] suites).filter (fun q => decide (q = f)))
      ∧ (runner_call f suites).tests = (runner_call f suites).dispatched.length
      ∧ (runner_call f suites).passed
        = ((runner_call f suites).dispatched.filter
            (fun e => decide (e.2.2 = testcase_status.passed))).length
      ∧ (runner_call f suites).failed
        = ((runner_call f suites).dispatched.filter
            (fun e => !decide (e.2.2 = testcase_status.passed))).map (fun e => (e.2.2, e.1))
      ∧ (runner_call f suites).passed + (runner_call f suites).failed.length
        = (runner_call f suites).tests := by
  obtain ⟨a, b, c, d, e5, g⟩ := runner_call_Inv f suites
  refine ⟨a, b, c, d, ?_⟩
  rw [c, d, b, List.length_map]
  have := length_filter_not_add (fun e => decide (e.2.2 = testcase_status.passed))
    (runner_call f suites).dispatched
  simpa using this

/-- C2: a dispatched test case runs in-process iff the run's filter equals
its qualified path exactly (isolation is used in every other case, the
empty filter included); when the filter matches exactly one qualified path
in the tree, exactly one test is dispatched, it runs in-process, and no
subprocess is spawned. -/
theorem mayfly_C2 (f : String) (suites : suiteList) :
    (∀ e ∈ (runner_call f suites).dispatched, (e.2.1 = true ↔ e.1 = f))
    ∧ (((suiteList.allTests [] suites).filter (fun q => decide (q = f))).length = 1 →
        (runner_call f suites).dispatched.length = 1
          ∧ (runner_call f suites).spawns = 0
          ∧ ∀ e ∈ (runner_call f suites).dispatched, e.2.1 = true) := by
  obtain ⟨a, b, c, d, e5, g⟩ := runner_call_Inv f suites
  constructor
  · intro e he
    rw [g e he]
    constructor
    · intro h
      exact of_decide_eq_true h
    · intro h
      simp [h]
  · intro hone
    have hf : f ≠ "" := by
      intro hfe
      subst hfe
      have hnil : (suiteList.allTests [] suites).filter (fun q => decide (q = "")) = [] := by
        rw [List.filter_eq_nil_iff]
        intro q hq
        simpa using allTests_ne_empty_pair.2 suites [] q hq
      rw [hnil] at hone
      cases hone
    rw [if_neg hf] at a
    have hlen : (runner_call f suites).dispatched.length = 1 := by
      have := congrArg List.length a
      rw [List.length_map] at this
      rw [this, hone]
    have hall : ∀ e ∈ (runner_call f suites).dispatched, e.2.1 = true := by
      intro e he
      have h1 := g e he
      have h2 : e.1 ∈ List.map (fun e => e.1) (runner_call f suites).dispatched :=
        List.mem_map_of_mem _ he
      rw [a] at h2
      rw [h1]
      exact (List.mem_filter.mp h2).2
    refine ⟨hlen, ?_, hall⟩
    rw [e5, List.filter_eq_nil_iff.mpr ?_]
    · rfl
    · intro e he
      simp [hall e he]

/-- C2 witness: filter `A/t1` on a suite with tests `t1`, `t2` — exactly
one test dispatched, in-process, no subprocess. -/
theorem mayfly_C2_witness :
    (runner_call "A/t1" (.cons (.mk "A" .nil
          [⟨"t1", .ok, "", false, 1⟩, ⟨"t2", .ok, "0 \n", false, 1⟩]) .nil)).dispatched.length = 1
    ∧ (runner_call "A/t1" (.cons (.mk "A" .nil
          [⟨"t1", .ok, "", false, 1⟩, ⟨"t2", .ok, "0 \n", false, 1⟩]) .nil)).spawns = 0
    ∧ ∀ e ∈ (runner_call "A/t1" (.cons (.mk "A" .nil
          [⟨"t1", .ok, "", false, 1⟩, ⟨"t2", .ok, "0 \n", false, 1⟩]) .nil)).dispatched,
        e.2.1 = true :=
  (mayfly_C2 "A/t1" (.cons (.mk "A" .nil
    [⟨"t1", .ok, "", false, 1⟩, ⟨"t2", .ok, "0 \n", false, 1⟩]) .nil)).2 (by decide)

/-- C3 counterexample: with the strict suite-prefix filter `A/B` over a
tree whose only test has qualified path `A/B/t1` (so that path lies under
the filtered suite), the code dispatches nothing at all, contradicting the
claim that every test under the suite is dispatched. -/
theorem mayfly_C3_counterexample :
    suiteList.allTests []
        (.cons (.mk "A" (.cons (.mk "B" .nil [⟨"t1", .ok, "0 \n", false, 1⟩]) .nil) []) .nil)
      = ["A/B/t1"]
    ∧ ("A/B" : String).data.isPrefixOf ("A/B/t1" : String).data = true
    ∧ ("A/B" : String) ≠ "A/B/t1"
    ∧ (runner_call "A/B"
        (.cons (.mk "A" (.cons (.mk "B" .nil [⟨"t1", .ok, "0 \n", false, 1⟩]) .nil) []) .nil)).dispatched
      = []
    ∧ (runner_call "A/B"
        (.cons (.mk "A" (.cons (.mk "B" .nil [⟨"t1", .ok, "0 \n", false, 1⟩]) .nil) []) .nil)).tests
      = 0 := by
  decide

/-- C3 amended: with a non-empty filter, the dispatched tests are exactly
those whose qualified path equals the filter; a filter that equals no
qualified path (in particular a strict suite-prefix) dispatches zero
tests. -/
theorem mayfly_C3_amended (f : String) (suites : suiteList) (hf : f ≠ "") :
    (runner_call f suites).dispatched.map (fun e => e.1)
        = (suiteList.allTests [] suites).filter (fun q => decide (q = f))
    ∧ ((∀ q ∈ suiteList.allTests [] suites, q ≠ f) →
        (runner_call f suites).dispatched = []) := by
  obtain ⟨a, _, _, _, _, _⟩ := runner_call_Inv f suites
  rw [if_neg hf] at a
  refine ⟨a, ?_⟩
  intro hno
  have hnil : (suiteList.allTests [] suites).filter (fun q => decide (q = f)) = [] := by
    rw [List.filter_eq_nil_iff]
    intro q hq
    simpa using hno q hq
  rw [hnil] at a
  exact List.map_eq_nil_iff.mp a

/-- C3 witness: filter `A/x` matching no qualified path dispatches
nothing. -/
theorem mayfly_C3_witness :
    (runner_call "A/x" (.cons (.mk "A" .nil [⟨"t1", .ok, "0 \n", false, 1⟩]) .nil)).dispatched.map
        (fun e => e.1)
      = (suiteList.allTests [] (.cons (.mk "A" .nil [⟨"t1", .ok, "0 \n", false, 1⟩]) .nil)).filter
          (fun q => decide (q = "A/x"))
    ∧ (runner_call "A/x"
        (.cons (.mk "A" .nil [⟨"t1", .ok, "0 \n", false, 1⟩]) .nil)).dispatched = [] :=
  ⟨(mayfly_C3_amended "A/x" (.cons (.mk "A" .nil [⟨"t1", .ok, "0 \n", false, 1⟩]) .nil)
      (by decide)).1,
    (mayfly_C3_amended "A/x" (.cons (.mk "A" .nil [⟨"t1", .ok, "0 \n", false, 1⟩]) .nil)
      (by decide)).2 (by decide)⟩

/-- C10: a run whose well-formed non-empty filter equals no qualified path
and is a path prefix of none dispatches zero tests, records no failure (in
particular no `not_found` result), writes no protocol line, and exits 0. -/
theorem mayfly_C10 (suites : suiteList) (a : Args) (h1 : a.filter ≠ "")
    (h2 : a.filter.data.contains '/' = true)
    (h3 : ∀ q ∈ suiteList.allTests [] suites, q ≠ a.filter)
    (_h4 : ∀ q ∈ suiteList.allTests [] suites,
      (a.filter ++ "/").data.isPrefixOf q.data = false) :
    ∃ st, run suites a = RunOutcome.exited 0 st ""
      ∧ st.tests = 0 ∧ st.passed = 0 ∧ st.failed = [] := by
  by_cases hh : a.help = true
  · exact ⟨RunState.empty, by simp [run, hh], rfl, rfl, rfl⟩
  by_cases hvv : a.version = true
  · exact ⟨RunState.empty, by simp [run, hh, hvv], rfl, rfl, rfl⟩
  obtain ⟨a', b', c', d', _, _⟩ := runner_call_Inv a.filter suites
  rw [if_neg h1] at a'
  have hnil : (suiteList.allTests [] suites).filter (fun q => decide (q = a.filter)) = [] := by
    rw [List.filter_eq_nil_iff]
    intro q hq
    simpa using h3 q hq
  rw [hnil] at a'
  have hdisp : (runner_call a.filter suites).dispatched = [] := List.map_eq_nil_iff.mp a'
  have ht : (runner_call a.filter suites).tests = 0 := by rw [b', hdisp]; rfl
  have hp : (runner_call a.filter suites).passed = 0 := by rw [c', hdisp]; rfl
  have hfl : (runner_call a.filter suites).failed = [] := by rw [d', hdisp]; rfl
  refine ⟨runner_call a.filter suites, ?_, ht, hp, hfl⟩
  simp [run, hh, hvv, h2, hp, ht]
  intro _ hn
  exact absurd (by simpa using h2) hn

/-- C10 witness: filter `A/zzz` over a tree with only `A/t1`. -/
theorem mayfly_C10_witness :
    ∃ st, run (.cons (.mk "A" .nil [⟨"t1", .ok, "0 \n", false, 1⟩]) .nil)
        ⟨false, false, false, "A/zzz", 1, 60⟩ = RunOutcome.exited 0 st ""
      ∧ st.tests = 0 ∧ st.passed = 0 ∧ st.failed = [] :=
  mayfly_C10 (.cons (.mk "A" .nil [⟨"t1", .ok, "0 \n", false, 1⟩]) .nil)
    ⟨false, false, false, "A/zzz", 1, 60⟩ (by decide) (by decide) (by decide) (by decide)

/-- C1 counterexample: in quiet mode with the malformed filter `abc`, the
run dispatches nothing (so trivially every dispatched test passed, the
counters agreeing at 0 = 0) yet exits 1, refuting the claimed
equivalence between exit code 0 and `totalPassed = totalDispatched`. -/
theorem mayfly_C1_counterexample :
    run (.cons (.mk "A" .nil [⟨"t1", .ok, "0 \n", false, 1⟩]) .nil)
        ⟨false, false, true, "abc", 1, 60⟩
      = RunOutcome.exited 1 RunState.empty (toString (statusCode testcase_status.not_found))
    ∧ RunState.empty.passed = RunState.empty.tests := by
  decide

/-- C1 amended: for every run that is not aborted by a malformed filter
(the filter is empty or contains `/`), the exit code is 0 iff every
dispatched test passed, i.e. iff `passed() = total()`; the malformed-filter
abort path returns 1 (or raises) regardless of the counters. -/
theorem mayfly_C1 (suites : suiteList) (a : Args)
    (h : a.filter = "" ∨ a.filter.data.contains '/' = true) :
    ∀ c st out, run suites a = RunOutcome.exited c st out → (c = 0 ↔ st.passed = st.tests) := by
  intro c st out hrun
  rw [run] at hrun
  by_cases hh : a.help = true
  · rw [if_pos hh] at hrun
    obtain ⟨rfl, rfl, rfl⟩ := RunOutcome.exited.inj hrun
    simp
  rw [if_neg hh] at hrun
  by_cases hvv : a.version = true
  · rw [if_pos hvv] at hrun
    obtain ⟨rfl, rfl, rfl⟩ := RunOutcome.exited.inj hrun
    simp
  rw [if_neg hvv] at hrun
  have hcond : ¬ (a.filter ≠ "" ∧ a.filter.data.contains '/' = false) := by
    rcases h with h | h
    · simp [h]
    · intro hc
      exact absurd (hc.2.symm.trans h) (by decide)
  rw [if_neg hcond] at hrun
  obtain ⟨rfl, rfl, rfl⟩ := RunOutcome.exited.inj hrun
  by_cases hpt : (runner_call a.filter suites).passed = (runner_call a.filter suites).tests <;>
    simp [hpt]

/-- C1 witness: an unfiltered run over a single passing test exits 0 with
agreeing counters. -/
theorem mayfly_C1_witness :
    (0 = 0 ↔ (runner_call "" (.cons (.mk "A" .nil [⟨"t1", .ok, "0 \n", false, 1⟩]) .nil)).passed
        = (runner_call "" (.cons (.mk "A" .nil [⟨"t1", .ok, "0 \n", false, 1⟩]) .nil)).tests) :=
  mayfly_C1 (.cons (.mk "A" .nil [⟨"t1", .ok, "0 \n", false, 1⟩]) .nil)
    ⟨false, false, false, "", 1, 60⟩ (Or.inl rfl) 0
    (runner_call "" (.cons (.mk "A" .nil [⟨"t1", .ok, "0 \n", false, 1⟩]) .nil)) ""
    (by decide)

/-- C8: a non-empty filter without `/` aborts the run before any test
executes — in non-quiet mode by raising the user-facing
`invalid_testcase_name_format` error, in quiet mode by writing the numeric
`not_found` code to standard output and returning exit code 1 with the
state still empty. -/
theorem mayfly_C8 (suites : suiteList) (a : Args) (hh : a.help = false)
    (hv : a.version = false) (h1 : a.filter ≠ "")
    (h2 : a.filter.data.contains '/' = false) :
    (a.quiet = false → run suites a = RunOutcome.raised_invalid_testcase_name_format)
    ∧ (a.quiet = true → run suites a
        = RunOutcome.exited 1 RunState.empty (toString (statusCode testcase_status.not_found))) := by
  have hmem : '/' ∉ a.filter.data := by
    intro hm
    simp at h2
    exact h2 hm
  constructor <;> intro hq <;> simp [run, hh, hv, h1, hq, hmem]

/-- C8 witness: quiet run with filter `abc` writes the `not_found` code
and exits 1 from the empty state. -/
theorem mayfly_C8_witness :
    run .nil ⟨false, false, true, "abc", 1, 60⟩
      = RunOutcome.exited 1 RunState.empty (toString (statusCode testcase_status.not_found)) :=
  (mayfly_C8 .nil ⟨false, false, true, "abc", 1, 60⟩ rfl rfl (by decide) (by decide)).2 rfl

/-- C9 counterexample: an in-process execution (filter equal to the
qualified path `A/t1`) whose attempt took 5 ms leaves the result's
`duration` unassigned — the in-process branch of `_run_test` never touches
the wall clock, refuting the claim that the duration holds the elapsed
time on every execution path. -/
theorem mayfly_C9_counterexample :
    qualifiedName ["A"] "t1" = "A/t1"
    ∧ (run_test "A/t1" ["A"] ⟨"t1", .ok, "", false, 5⟩).1.duration = none
    ∧ (none : Option Nat) ≠ some 5 := by
  decide

/-- C9 amended: the result's `duration` holds the measured wall-clock
elapsed time of the attempt only for isolated executions; an in-process
execution (exact filter match) never assigns it. -/
theorem mayfly_C9 (f : String) (stack : List String) (t : testcase) :
    (qualifiedName stack t.name = f → (run_test f stack t).1.duration = none)
    ∧ (qualifiedName stack t.name ≠ f →
        (run_test f stack t).1.duration = some t.elapsed_ms
          ∧ (run_test f stack t).2 = true) := by
  constructor <;> intro h
  · cases hb : t.body <;> simp [run_test, h, hb]
  · simp [run_test, h]

/-- C9 witness: an isolated attempt (empty filter) records its measured
7 ms duration. -/
theorem mayfly_C9_witness :
    (run_test "" ["A"] ⟨"t1", .ok, "0 \n", false, 7⟩).1.duration = some 7
    ∧ (run_test "" ["A"] ⟨"t1", .ok, "0 \n", false, 7⟩).2 = true :=
  (mayfly_C9 "" ["A"] ⟨"t1", .ok, "0 \n", false, 7⟩).2 (by decide)

/-! ### Protocol decoding (C4) -/

theorem takeWhile_append_stop {α : Type} (p : α → Bool) (l : List α) (x : α) (r : List α)
    (hl : ∀ c ∈ l, p c = true) (hx : p x = false) :
    (l ++ x :: r).takeWhile p = l := by
  induction l with
  | nil => simp [List.takeWhile_cons, hx]
  | cons a l ih =>
    simp [List.takeWhile_cons, hl a (List.mem_cons_self a l),
      ih (fun c hc => hl c (List.mem_cons_of_mem a hc))]

theorem dropWhile_append_stop {α : Type} (p : α → Bool) (l : List α) (x : α) (r : List α)
    (hl : ∀ c ∈ l, p c = true) (hx : p x = false) :
    (l ++ x :: r).dropWhile p = x :: r := by
  induction l with
  | nil => simp [List.dropWhile_cons, hx]
  | cons a l ih =>
    simp [List.dropWhile_cons, hl a (List.mem_cons_self a l),
      ih (fun c hc => hl c (List.mem_cons_of_mem a hc))]

theorem takeWhile_all {α : Type} (p : α → Bool) (l : List α) (hl : ∀ c ∈ l, p c = true) :
    l.takeWhile p = l := by
  induction l with
  | nil => rfl
  | cons a l ih =>
    simp [List.takeWhile_cons, hl a (List.mem_cons_self a l),
      ih (fun c hc => hl c (List.mem_cons_of_mem a hc))]

theorem dropWhile_all {α : Type} (p : α → Bool) (l : List α) (hl : ∀ c ∈ l, p c = true) :
    l.dropWhile p = [] := by
  induction l with
  | nil => rfl
  | cons a l ih =>
    simp [List.dropWhile_cons, hl a (List.mem_cons_self a l),
      ih (fun c hc => hl c (List.mem_cons_of_mem a hc))]

/-- A decimal digit is not whitespace, not a sign character, and not a
newline. -/
theorem digit_char_facts {c : Char} (h : c.isDigit = true) :
    isSpaceChar c = false ∧ ¬ c = '-' ∧ ¬ c = '+' ∧ (c != '\n') = true := by
  have hne : ∀ x : Char, x.isDigit = false → ¬ c = x := by
    intro x hx e
    rw [e] at h
    rw [h] at hx
    cases hx
  refine ⟨?_, hne '-' (by decide), hne '+' (by decide), ?_⟩
  · rw [isSpaceChar]
    simp [hne ' ' (by decide), hne '\t' (by decide), hne '\n' (by decide),
      hne '\x0b' (by decide), hne '\x0c' (by decide), hne '\r' (by decide)]
  · simp only [bne_iff_ne, ne_eq]
    exact hne '\n' (by decide)

/-- Decoding a well-formed protocol line `"<digits><space><message>\n"`
for an arbitrary digit token: the integer is parsed, the line is read, the
separator stripped, and the watchdog flag plays no role — the result is
`crashed` for a decoded value above 3 and the decoded status with the
message otherwise. -/
theorem read_line_helper (ds : List Char) (msg : String) (flag : Bool)
    (hne : ds ≠ []) (hdig : ∀ c ∈ ds, c.isDigit = true)
    (hlt : digitsToNat ds < 2 ^ 64) (hnl : '\n' ∉ msg.data) :
    read_child_result ((⟨ds⟩ : String) ++ " " ++ msg ++ "\n") flag
      = (if digitsToNat ds > 3 then (testcase_status.crashed, "")
        else (statusOfCode (digitsToNat ds), msg)) := by
  obtain ⟨d, tl, rfl⟩ : ∃ d tl, ds = d :: tl := by
    cases ds with
    | nil => exact absurd rfl hne
    | cons d tl => exact ⟨d, tl, rfl⟩
  obtain ⟨hs0, hm0, hp0, _⟩ := digit_char_facts (hdig d (List.mem_cons_self d tl))
  have hmem : ∀ ch ∈ msg.data, (ch != '\n') = true := by
    intro ch hc
    simp only [bne_iff_ne, ne_eq]
    intro h
    exact hnl (h ▸ hc)
  have hdata : ((⟨d :: tl⟩ : String) ++ " " ++ msg ++ "\n").data
      = d :: (tl ++ ' ' :: (msg.data ++ ['\n'])) := by
    rw [str_data_append, str_data_append, str_data_append]
    simp
  have hsdrop : (d :: (tl ++ ' ' :: (msg.data ++ ['\n']))).dropWhile isSpaceChar
      = d :: (tl ++ ' ' :: (msg.data ++ ['\n'])) := by
    simp [List.dropWhile_cons, hs0]
  have htake : (d :: (tl ++ ' ' :: (msg.data ++ ['\n']))).takeWhile Char.isDigit
      = d :: tl := by
    have h0 := takeWhile_append_stop Char.isDigit (d :: tl) ' ' (msg.data ++ ['\n'])
      hdig (by decide)
    rw [List.cons_append] at h0
    exact h0
  have hdrop : (d :: (tl ++ ' ' :: (msg.data ++ ['\n']))).dropWhile Char.isDigit
      = ' ' :: (msg.data ++ ['\n']) := by
    have h0 := dropWhile_append_stop Char.isDigit (d :: tl) ' ' (msg.data ++ ['\n'])
      hdig (by decide)
    rw [List.cons_append] at h0
    exact h0
  have htw : (msg.data ++ '\n' :: []).takeWhile (fun ch => ch != '\n') = msg.data :=
    takeWhile_append_stop _ msg.data '\n' [] hmem (by decide)
  have hdw : (msg.data ++ '\n' :: []).dropWhile (fun ch => ch != '\n') = '\n' :: [] :=
    dropWhile_append_stop _ msg.data '\n' [] hmem (by decide)
  rw [read_child_result]
  simp only [hdata]
  rw [extractUIntMax]
  simp only [Bool.or_self, Bool.false_or, if_false, hsdrop, if_neg hm0, if_neg hp0,
    htake, hdrop, List.isEmpty_cons, Bool.false_eq_true, if_pos hlt]
  rw [getlineChars]
  simp only [List.isEmpty_cons, Bool.or_self, if_false, List.takeWhile_cons,
    show ((' ' : Char) != '\n') = true from rfl, if_true, List.dropWhile_cons, htw, hdw]
  by_cases h3 : digitsToNat (d :: tl) > 3 <;> simp [htw, hdw, str_mk_data, h3]

/-- When the integer extraction from the child's stream fails (no valid
token, or overflow), `getline` fails on the dead stream, the message is
empty, `substr(1)` throws, and the watchdog flag decides the recorded
status — for every stream. -/
theorem read_failed_extract (s : String) (flag : Bool)
    (h : (extractUIntMax { data := s.data, failed := false, eof := false }).2.failed = true) :
    read_child_result s flag
      = ((if flag then testcase_status.timed_out else testcase_status.crashed), "") := by
  rw [read_child_result, getlineChars]
  simp [h]

/-- A stream holding a bare digit token and nothing else: extraction
succeeds but hits end-of-stream, `getline` fails, the message is empty and
the watchdog flag decides. -/
theorem read_token_only (ds : List Char) (flag : Bool) (hne : ds ≠ [])
    (hdig : ∀ c ∈ ds, c.isDigit = true) (hlt : digitsToNat ds < 2 ^ 64) :
    read_child_result ⟨ds⟩ flag
      = ((if flag then testcase_status.timed_out else testcase_status.crashed), "") := by
  obtain ⟨d, tl, rfl⟩ : ∃ d tl, ds = d :: tl := by
    cases ds with
    | nil => exact absurd rfl hne
    | cons d tl => exact ⟨d, tl, rfl⟩
  obtain ⟨hs0, hm0, hp0, _⟩ := digit_char_facts (hdig d (List.mem_cons_self d tl))
  have hdata : (⟨d :: tl⟩ : String).data = d :: tl := rfl
  have hsdrop : (d :: tl).dropWhile isSpaceChar = d :: tl := by
    simp [List.dropWhile_cons, hs0]
  have htake : (d :: tl).takeWhile Char.isDigit = d :: tl := takeWhile_all _ _ hdig
  have hdrop : (d :: tl).dropWhile Char.isDigit = [] := dropWhile_all _ _ hdig
  rw [read_child_result]
  simp only [hdata]
  rw [extractUIntMax]
  simp only [Bool.or_self, Bool.false_or, if_false, hsdrop, if_neg hm0, if_neg hp0,
    htake, hdrop, List.isEmpty_cons, List.isEmpty_nil, Bool.false_eq_true, if_pos hlt]
  rw [getlineChars]
  simp

/-- A stream holding a digit token followed directly by the newline: the
integer is read, `getline` yields an empty message, `substr(1)` throws and
the watchdog flag decides. -/
theorem read_token_newline (ds : List Char) (flag : Bool) (hne : ds ≠ [])
    (hdig : ∀ c ∈ ds, c.isDigit = true) (hlt : digitsToNat ds < 2 ^ 64) :
    read_child_result ((⟨ds⟩ : String) ++ "\n") flag
      = ((if flag then testcase_status.timed_out else testcase_status.crashed), "") := by
  obtain ⟨d, tl, rfl⟩ : ∃ d tl, ds = d :: tl := by
    cases ds with
    | nil => exact absurd rfl hne
    | cons d tl => exact ⟨d, tl, rfl⟩
  obtain ⟨hs0, hm0, hp0, _⟩ := digit_char_facts (hdig d (List.mem_cons_self d tl))
  have hdata : ((⟨d :: tl⟩ : String) ++ "\n").data = d :: (tl ++ ['\n']) := by
    rw [str_data_append]
    simp
  have hsdrop : (d :: (tl ++ ['\n'])).dropWhile isSpaceChar = d :: (tl ++ ['\n']) := by
    simp [List.dropWhile_cons, hs0]
  have htake : (d :: (tl ++ ['\n'])).takeWhile Char.isDigit = d :: tl := by
    have h0 := takeWhile_append_stop Char.isDigit (d :: tl) '\n' [] hdig (by decide)
    rw [List.cons_append] at h0
    exact h0
  have hdrop : (d :: (tl ++ ['\n'])).dropWhile Char.isDigit = '\n' :: [] := by
    have h0 := dropWhile_append_stop Char.isDigit (d :: tl) '\n' [] hdig (by decide)
    rw [List.cons_append] at h0
    exact h0
  rw [read_child_result]
  simp only [hdata]
  rw [extractUIntMax]
  simp only [Bool.or_self, Bool.false_or, if_false, hsdrop, if_neg hm0, if_neg hp0,
    htake, hdrop, List.isEmpty_cons, Bool.false_eq_true, if_pos hlt]
  rw [getlineChars]
  simp

/-- C4 counterexample: on the stream `"7"` a valid integer token (7,
outside the range 0..3) is decoded, yet with the watchdog flag set the
recorded status is `timed_out`, not the `crashed` the claim prescribes for
an out-of-range code — the `message.substr(1)` throw path consults the
timeout flag even though bytes were read. -/
theorem mayfly_C4_counterexample :
    (extractUIntMax { data := ("7" : String).data, failed := false, eof := false }).1 = 7
    ∧ 3 < 7
    ∧ read_child_result "7" true = (testcase_status.timed_out, "")
    ∧ testcase_status.timed_out ≠ testcase_status.crashed := by
  decide

/-- C4 amended: a fully decoded line (integer token plus non-empty
remainder) always takes precedence over the timeout flag — every in-range
code maps to its status with the message, every out-of-range code to
`crashed`; whenever no valid integer token can be read (the extraction
sets `failbit`, covering empty and garbage streams as well as numeric
overflow), or nothing remains on the line after the token (bare token,
with or without the trailing newline), the flag decides between
`timed_out` and the defensive `crashed`. -/
theorem mayfly_C4 (flag : Bool) :
    (∀ ds : List Char, ∀ msg : String, ds ≠ [] → (∀ c ∈ ds, c.isDigit = true) →
        digitsToNat ds ≤ 3 → msg.data.contains '\n' = false →
        read_child_result ((⟨ds⟩ : String) ++ " " ++ msg ++ "\n") flag
          = (statusOfCode (digitsToNat ds), msg))
    ∧ (∀ ds : List Char, ∀ msg : String, ds ≠ [] → (∀ c ∈ ds, c.isDigit = true) →
        3 < digitsToNat ds → digitsToNat ds < 2 ^ 64 →
        msg.data.contains '\n' = false →
        read_child_result ((⟨ds⟩ : String) ++ " " ++ msg ++ "\n") flag
          = (testcase_status.crashed, ""))
    ∧ (∀ s : String,
        (extractUIntMax { data := s.data, failed := false, eof := false }).2.failed = true →
        read_child_result s flag
          = ((if flag then testcase_status.timed_out else testcase_status.crashed), ""))
    ∧ (∀ ds : List Char, ds ≠ [] → (∀ c ∈ ds, c.isDigit = true) →
        digitsToNat ds < 2 ^ 64 →
        read_child_result ⟨ds⟩ flag
            = ((if flag then testcase_status.timed_out else testcase_status.crashed), "")
          ∧ read_child_result ((⟨ds⟩ : String) ++ "\n") flag
            = ((if flag then testcase_status.timed_out else testcase_status.crashed), "")) := by
  have hnl : ∀ msg : String, msg.data.contains '\n' = false → '\n' ∉ msg.data := by
    intro msg h hm
    simp at h
    exact h hm
  refine ⟨?_, ?_, ?_, ?_⟩
  · intro ds msg hne hdig hle hc
    have h0 := read_line_helper ds msg flag hne hdig
      (lt_of_le_of_lt hle (by norm_num)) (hnl msg hc)
    rw [if_neg (by omega)] at h0
    exact h0
  · intro ds msg hne hdig h3 hlt hc
    have h0 := read_line_helper ds msg flag hne hdig hlt (hnl msg hc)
    rw [if_pos h3] at h0
    exact h0
  · exact fun s h => read_failed_extract s flag h
  · exact fun ds hne hdig hlt =>
      ⟨read_token_only ds flag hne hdig hlt, read_token_newline ds flag hne hdig hlt⟩

/-- C4 witness: the two-digit line `10 x` decodes to `crashed` (code 10 is
out of range) even with the watchdog flag set. -/
theorem mayfly_C4_witness :
    read_child_result ((⟨['1', '0']⟩ : String) ++ " " ++ "x" ++ "\n") true
      = (testcase_status.crashed, "") :=
  (mayfly_C4 true).2.1 ['1', '0'] "x" (by decide) (by decide) (by decide) (by decide)
    (by decide)

end Mayfly
